import Mathlib

/-!
Verification development for the `tracer_by_rakshith` repository: a shallow
embedding of the demo_fx tracing JIT specializer (graph IR, executor, bytecode
decoder / CFG builder, symbolic interpreter, guard compiler and wrapper
dispatch) together with theorems settling the specification claims.

Modelling conventions:
* Python floats are modelled as rationals (exact for all literals appearing in
  the examples).
* Python `is` identity tests on snapshotted values are modelled as structural
  equality; the snapshots our claims exercise are functions and modules, for
  which the two coincide.
* Python `None` is the value `Val.vnone`; `dict.get` is association-list lookup
  that collapses an absent key and a key stored with `None` exactly like the
  source's `.get(name, None)` pattern when followed by an `is None` test.
* Node identity (the graphs are append-only) is the node's index in the graph.
-/

set_option maxHeartbeats 1000000

namespace DemoFx

/-- Association-list lookup, modelling Python `dict.get(k)` (returns `none`
when the key is absent). Insertion order is preserved by `aset`. -/
def alook {κ α : Type} [DecidableEq κ] : List (κ × α) → κ → Option α
  | [], _ => none
  | p :: rest, k => if p.1 = k then some p.2 else alook rest k

/-- Association-list update, modelling Python `d[k] = v` (in-place update of an
existing key, append for a fresh key — insertion order preserved). -/
def aset {κ α : Type} [DecidableEq κ] : List (κ × α) → κ → α → List (κ × α)
  | [], k, v => [(k, v)]
  | (k2, v2) :: rest, k, v =>
      if k2 = k then (k2, v) :: rest else (k2, v2) :: aset rest k v

/-- Association-list key removal. -/
def aerase {κ α : Type} [DecidableEq κ] : List (κ × α) → κ → List (κ × α)
  | [], _ => []
  | p :: rest, k => if p.1 = k then aerase rest k else p :: aerase rest k

/-- Host modules that the traced examples reference. -/
inductive ModuleId where
  | opsMod
deriving DecidableEq

/-- Host callables that can appear as `call_function` targets: the demo_fx ops,
the binop lambdas from the tracer, and the tracer's helper callables. -/
inductive FuncId where
  | opsAdd | opsMul | opsLinear
  | binAdd | binMul | binSub | binDiv
  | phiSelect
  | listCtor
  | dictCtor
  | callWithKwargs
  | bound (f : FuncId)
deriving DecidableEq

/-- Host-language values (the dynamic values flowing through the IR). -/
inductive Val where
  | vnone
  | vbool (b : Bool)
  | vint (n : Int)
  | vfloat (q : ℚ)
  | vstr (s : String)
  | vfun (f : FuncId)
  | vmodule (m : ModuleId)
  | vtuple (xs : List Val)
  | vlist (xs : List Val)
  | vdict (kvs : List (Val × Val))

/-- Arguments stored in a node's `args`/`kwargs`: node references (by graph
index), literal host values, or tuples of such. -/
inductive Arg where
  | node (i : Nat)
  | lit (v : Val)
  | tup (xs : List Arg)

/-- An IR node (demo_fx/graph.py, class Node). `target` is the opcode-specific
payload (name string, constant, callable, index …), all of which are host
values. -/
structure Node where
  op : String
  target : Val
  args : List Arg
  kwargs : List (String × Arg)
  name : Option String

/-- Guard records as emitted by the bytecode tracer (tuples in the source).
Node references are graph indices; `is_bool`'s condition may be Python `None`
(popped from an empty stack). -/
inductive Guard where
  | globalEq (name : String) (v : Val)
  | derefEq (name : String) (v : Val)
  | attrEq (base : Nat) (attr : String) (v : Val)
  | isBool (cond : Option Nat)
  | phiUnmerged (name : String) (vals : List (Option Nat))
  | unhandledOpcode (opname : String) (offset : Nat)

mutual

/-- Structural comparison of host values, modelling Python's `is` tests on the
snapshots taken at trace time (the snapshots the claims exercise are functions
and modules, for which identity and structural equality coincide). -/
def valBeq : Val → Val → Bool
  | .vnone, .vnone => true
  | .vbool a, .vbool b => a == b
  | .vint a, .vint b => a == b
  | .vfloat a, .vfloat b => a == b
  | .vstr a, .vstr b => a == b
  | .vfun a, .vfun b => a == b
  | .vmodule a, .vmodule b => a == b
  | .vtuple xs, .vtuple ys => valListBeq xs ys
  | .vlist xs, .vlist ys => valListBeq xs ys
  | .vdict xs, .vdict ys => valPairListBeq xs ys
  | _, _ => false

/-- Elementwise `valBeq` on lists of values. -/
def valListBeq : List Val → List Val → Bool
  | [], [] => true
  | x :: xs, y :: ys => valBeq x y && valListBeq xs ys
  | _, _ => false

/-- Elementwise `valBeq` on key/value pair lists. -/
def valPairListBeq : List (Val × Val) → List (Val × Val) → Bool
  | [], [] => true
  | (k, v) :: xs, (k2, v2) :: ys => valBeq k k2 && valBeq v v2 && valPairListBeq xs ys
  | _, _ => false

end

/-- Names of modules (Python `__name__`), used only for debug node labels. -/
def moduleName : ModuleId → String
  | .opsMod => "demo_fx.ops"

/-- Attribute table of the host modules (`getattr` on the module object). -/
def moduleAttrs : ModuleId → List (String × Val)
  | .opsMod => [("add", .vfun .opsAdd), ("mul", .vfun .opsMul), ("linear", .vfun .opsLinear)]

/-- Python `getattr(v, attr)` restricted to the attributes the traced programs
query (module attributes; the names probed — "add", "mul", "pi" … — are not
attributes of numbers or strings). -/
def hasattrV : Val → String → Option Val
  | .vmodule m, attr => alook (moduleAttrs m) attr
  | _, _ => none

/-- Python `getattr(v, "__name__", default-ish)` as used for debug labels. -/
def pyName : Val → String
  | .vfun .opsAdd => "add"
  | .vfun .opsMul => "mul"
  | .vfun .opsLinear => "linear"
  | .vfun _ => "fn"
  | .vmodule m => moduleName m
  | _ => "obj"

/-- Errors that executor / host evaluation can raise (Python exception kinds
relevant to the claims). -/
inductive ExecErr where
  | missingBinding (name : String)
  | phNoName
  | notEvaluated
  | unsupportedOp (op : String)
  | typeError
  | attrError
  | indexError
  | zeroDiv
  | noOutput
deriving DecidableEq

/-- Python `+` on the value kinds arising in the examples (numbers, strings,
lists); every other combination raises TypeError, as in the host. -/
def pyAdd : Val → Val → Except ExecErr Val
  | .vint a, .vint b => .ok (.vint (a + b))
  | .vint a, .vfloat b => .ok (.vfloat (a + b))
  | .vfloat a, .vint b => .ok (.vfloat (a + b))
  | .vfloat a, .vfloat b => .ok (.vfloat (a + b))
  | .vbool a, .vint b => .ok (.vint ((if a then 1 else 0) + b))
  | .vint a, .vbool b => .ok (.vint (a + (if b then 1 else 0)))
  | .vstr a, .vstr b => .ok (.vstr (a ++ b))
  | .vlist a, .vlist b => .ok (.vlist (a ++ b))
  | .vtuple a, .vtuple b => .ok (.vtuple (a ++ b))
  | _, _ => .error .typeError

/-- Python `*` on numbers (sequence repetition does not arise in the traced
programs; in particular `str * str` raises TypeError exactly as in the host). -/
def pyMul : Val → Val → Except ExecErr Val
  | .vint a, .vint b => .ok (.vint (a * b))
  | .vint a, .vfloat b => .ok (.vfloat (a * b))
  | .vfloat a, .vint b => .ok (.vfloat (a * b))
  | .vfloat a, .vfloat b => .ok (.vfloat (a * b))
  | _, _ => .error .typeError

/-- Python `-` on numbers. -/
def pySub : Val → Val → Except ExecErr Val
  | .vint a, .vint b => .ok (.vint (a - b))
  | .vint a, .vfloat b => .ok (.vfloat (a - b))
  | .vfloat a, .vint b => .ok (.vfloat (a - b))
  | .vfloat a, .vfloat b => .ok (.vfloat (a - b))
  | _, _ => .error .typeError

/-- Python `/` (true division) on numbers. -/
def pyDiv : Val → Val → Except ExecErr Val
  | .vint a, .vint b => if b = 0 then .error .zeroDiv else .ok (.vfloat ((a : ℚ) / (b : ℚ)))
  | .vint a, .vfloat b => if b = 0 then .error .zeroDiv else .ok (.vfloat (a / b))
  | .vfloat a, .vint b => if b = 0 then .error .zeroDiv else .ok (.vfloat (a / (b : ℚ)))
  | .vfloat a, .vfloat b => if b = 0 then .error .zeroDiv else .ok (.vfloat (a / b))
  | _, _ => .error .typeError

/-- Python truthiness (`bool(v)`), as used by `_phi_select`'s conditional. -/
def truthy : Val → Bool
  | .vnone => false
  | .vbool b => b
  | .vint n => n ≠ 0
  | .vfloat q => q ≠ 0
  | .vstr s => s ≠ ""
  | .vtuple xs => !xs.isEmpty
  | .vlist xs => !xs.isEmpty
  | .vdict xs => !xs.isEmpty
  | _ => true

/-- `list(x)` on one argument: iterate the argument (Python `list(a, b)` with
two or more arguments is a TypeError — the executor really hits this for
`BUILD_LIST` nodes, whose target is `list` applied to all elements). -/
def pyListOf : Val → Except ExecErr Val
  | .vlist xs => .ok (.vlist xs)
  | .vtuple xs => .ok (.vlist xs)
  | _ => .error .typeError

/-- `dict(x)` on one argument: a sequence of key/value pairs builds a dict,
as produced by the tracer's `BUILD_MAP` node. -/
def pyDictOf : Val → Except ExecErr Val
  | .vdict kvs => .ok (.vdict kvs)
  | .vtuple xs =>
      match xs.mapM (fun p => match p with
        | .vtuple [k, v] => some (k, v)
        | .vlist [k, v] => some (k, v)
        | _ => none) with
      | some kvs => .ok (.vdict kvs)
      | none => .error .typeError
  | .vlist xs =>
      match xs.mapM (fun p => match p with
        | .vtuple [k, v] => some (k, v)
        | .vlist [k, v] => some (k, v)
        | _ => none) with
      | some kvs => .ok (.vdict kvs)
      | none => .error .typeError
  | _ => .error .typeError

/-- Nesting depth of the CALL_FUNCTION_KW pass-through lambdas. -/
def funDepth : FuncId → Nat
  | .bound f => funDepth f + 1
  | _ => 1

/-- Fuel contributed by one argument value to `applyFunAux`. -/
def valFuel : Val → Nat
  | .vfun f => funDepth f + 1
  | _ => 1

/-- Host application of the callables stored in `call_function` targets
(demo_fx/ops.py plus the tracer's helper lambdas), with an explicit structural
fuel. The only recursion is through the pass-through helpers
(`_call_with_kwargs` and the CALL_FUNCTION_KW lambda), each call strictly
shrinking `funDepth f + (args.map valFuel).sum`, so `applyFun`'s fuel below
never reaches 0; the fuel only makes the recursion structural. Keyword
arguments are meaningful for the pass-through helpers; the ops bind two
parameters. -/
def applyFunAux : Nat → FuncId → List Val → List (String × Val) → Except ExecErr Val
  | 0, _, _, _ => .error .typeError
  | Nat.succ fuel, f, args, kw =>
    match f, args, kw with
    | .opsAdd, [a, b], [] => pyAdd a b
    | .opsAdd, [a], [("y", b)] => pyAdd a b
    | .opsMul, [a, b], [] => pyMul a b
    | .opsMul, [a], [("y", b)] => pyMul a b
    | .opsLinear, [x, w], [] => pyMul x w
    | .opsLinear, [x, w, b], [] => do pyAdd (← pyMul x w) b
    | .binAdd, [a, b], [] => pyAdd a b
    | .binMul, [a, b], [] => pyMul a b
    | .binSub, [a, b], [] => pySub a b
    | .binDiv, [a, b], [] => pyDiv a b
    | .phiSelect, c :: v0 :: v1 :: _, [] => .ok (if truthy c then v0 else v1)
    | .phiSelect, _, _ => .error .indexError
    | .listCtor, [], [] => .ok (.vlist [])
    | .listCtor, [x], [] => pyListOf x
    | .listCtor, _, _ => .error .typeError
    | .dictCtor, [pairs], [] => pyDictOf pairs
    | .dictCtor, _, _ => .error .typeError
    | .callWithKwargs, func :: rest, kwrest =>
        match func with
        | .vfun f2 => applyFunAux fuel f2 rest kwrest
        | _ => .error .typeError
    | .bound f2, args2, kw2 => applyFunAux fuel f2 args2 kw2
    | _, _, _ => .error .typeError

/-- Host application with sufficient fuel (see `applyFunAux`). -/
def applyFun (f : FuncId) (args : List Val) (kw : List (String × Val)) : Except ExecErr Val :=
  applyFunAux (funDepth f + (args.map valFuel).sum + 1) f args kw

/-- List indexing with Python's negative-index convention. -/
def pyIndexList (xs : List Val) (idx : Int) : Except ExecErr Val :=
  let j : Int := if idx < 0 then idx + xs.length else idx
  if j < 0 then .error .indexError
  else
    match xs.get? j.toNat with
    | some v => .ok v
    | none => .error .indexError

/-- Python `base[idx]` as evaluated for `get_index` nodes. -/
def pyIndex (base : Val) (idx : Int) : Except ExecErr Val :=
  match base with
  | .vlist xs => pyIndexList xs idx
  | .vtuple xs => pyIndexList xs idx
  | _ => .error .typeError

mutual

/-- The executor's argument resolution (graph.py, `resolve` inside
`run_with_bindings`): a `Node` reference reads the value map and raises if the
node has not been evaluated; tuples resolve recursively; literals pass
through. -/
def resolveArg (vm : List (Nat × Val)) : Arg → Except ExecErr Val
  | .node i =>
      match alook vm i with
      | some v => .ok v
      | none => .error .notEvaluated
  | .lit v => .ok v
  | .tup xs =>
      match resolveArgs vm xs with
      | .ok vs => .ok (.vtuple vs)
      | .error e => .error e

/-- Resolve a list of arguments left to right. -/
def resolveArgs (vm : List (Nat × Val)) : List Arg → Except ExecErr (List Val)
  | [] => .ok []
  | a :: rest =>
      match resolveArg vm a with
      | .error e => .error e
      | .ok v =>
          match resolveArgs vm rest with
          | .error e => .error e
          | .ok vs => .ok (v :: vs)

end

/-- Resolve keyword arguments (name → value). -/
def resolveKw (vm : List (Nat × Val)) : List (String × Arg) → Except ExecErr (List (String × Val))
  | [] => .ok []
  | (n, a) :: rest => do
      let v ← resolveArg vm a
      let vs ← resolveKw vm rest
      .ok ((n, v) :: vs)

/-- `node.args[0]` as the executor reads it (IndexError on an empty tuple). -/
def resolveFirstArg (vm : List (Nat × Val)) (args : List Arg) : Except ExecErr Val :=
  match args with
  | a :: _ => resolveArg vm a
  | [] => .error .indexError

/-- Bind the actual inputs to the placeholder nodes (graph.py lines 72–78):
a placeholder without a name or without a binding raises. The graph is given
with explicit indices (node identity). -/
def bindPlaceholders (bindings : List (String × Val)) : List (Nat × Node) → Except ExecErr (List (Nat × Val))
  | [] => .ok []
  | (i, node) :: rest =>
      if node.op = "placeholder" then
        match node.name with
        | none => .error .phNoName
        | some n =>
            match alook bindings n with
            | none => .error (.missingBinding n)
            | some v => (bindPlaceholders bindings rest).map (fun vm => (i, v) :: vm)
      else bindPlaceholders bindings rest

/-- The executor's node loop (graph.py, `run_with_bindings` lines 89–116),
evaluating nodes in graph order. The opcode dispatch is the source's
if/elif chain; the final `else` is the NotImplementedError fallback. Note the
source has no `store_fast` case: that opcode falls into the fallback. -/
def execNodes (vm : List (Nat × Val)) : List (Nat × Node) → Except ExecErr Val
  | [] => .error .noOutput
  | (i, node) :: rest =>
      if node.op = "placeholder" then execNodes vm rest
      else if node.op = "const" then execNodes (aset vm i node.target) rest
      else if node.op = "call_function" then
        match resolveArgs vm node.args with
        | .error e => .error e
        | .ok args =>
            match resolveKw vm node.kwargs with
            | .error e => .error e
            | .ok kwargs =>
                match node.target with
                | .vfun f =>
                    match applyFun f args kwargs with
                    | .error e => .error e
                    | .ok v => execNodes (aset vm i v) rest
                | _ => .error .typeError
      else if node.op = "get_local" then execNodes (aset vm i node.target) rest
      else if node.op = "get_index" then
        match resolveFirstArg vm node.args with
        | .error e => .error e
        | .ok base =>
            match node.target with
            | .vint k =>
                match pyIndex base k with
                | .error e => .error e
                | .ok v => execNodes (aset vm i v) rest
            | _ => .error .typeError
      else if node.op = "get_attr" then
        match resolveFirstArg vm node.args with
        | .error e => .error e
        | .ok base =>
            match node.target with
            | .vstr attr =>
                match hasattrV base attr with
                | some v => execNodes (aset vm i v) rest
                | none => .error .attrError
            | _ => .error .attrError
      else if node.op = "output" then
        resolveFirstArg vm node.args
      else if node.op = "guard" then execNodes (aset vm i .vnone) rest
      else .error (.unsupportedOp node.op)

/-- GraphModule.run_with_bindings: bind placeholders, then evaluate the nodes
in insertion order; reaching the end without an `output` node raises. -/
def runWithBindings (graph : List Node) (bindings : List (String × Val)) : Except ExecErr Val :=
  match bindPlaceholders bindings graph.enum with
  | .error e => .error e
  | .ok vm => execNodes vm graph.enum

/-- The `argval` field of a decoded instruction: an integer jump offset, a
constant, a name, or absent. -/
inductive ArgVal where
  | none
  | int (n : Nat)
  | val (v : Val)
  | name (s : String)

/-- A decoded bytecode instruction (the fields of `dis.Instruction` that the
tracer reads). -/
structure Instr where
  offset : Nat
  opname : String
  arg : Option Nat
  argval : ArgVal

/-- `s.startswith(p)` (structural form of `String.startsWith`). -/
def strStarts (s p : String) : Bool :=
  p.data.isPrefixOf s.data

/-- `opname.startswith("JUMP") or opname.startswith("POP_JUMP") or
opname in ("FOR_ITER",)` — the jump family tested by `_build_basic_blocks`. -/
def isJumpish (op : String) : Bool :=
  strStarts op "JUMP" || strStarts op "POP_JUMP" || op == "FOR_ITER"

/-- The integer jump target of a jump-family instruction, when
`isinstance(argval, int)`. -/
def jumpTargetOf (i : Instr) : Option Nat :=
  if isJumpish i.opname then
    match i.argval with
    | .int t => some t
    | _ => none
  else none

/-- Offsets of instructions that immediately follow a `RETURN_VALUE`,
`JUMP_ABSOLUTE` or `JUMP_FORWARD` (bytecode_tracer.py lines 299–305: only
these three opnames make the *next* instruction a leader — the instruction
after a conditional jump is not included). -/
def afterTermOffsets : List Instr → List Nat
  | a :: b :: rest =>
      (if a.opname = "RETURN_VALUE" ∨ a.opname = "JUMP_ABSOLUTE" ∨ a.opname = "JUMP_FORWARD"
       then [b.offset] else []) ++ afterTermOffsets (b :: rest)
  | _ => []

/-- The leader offsets collected by `_build_basic_blocks` (lines 277–305),
before sorting: the first instruction's offset, every integer jump target, and
every instruction after a return or unconditional jump. (A jump target that is
not an actual instruction offset is still collected; block building then
fails, as the source's `offset2idx[leader]` raises KeyError.) -/
def leaderCandidates (instrs : List Instr) : List Nat :=
  match instrs with
  | [] => []
  | i0 :: _ => i0.offset :: (instrs.filterMap jumpTargetOf ++ afterTermOffsets instrs)

/-- Insert into a strictly sorted list, skipping duplicates (building
`sorted(list(set(...)))` one element at a time). -/
def insSortDedup (x : Nat) : List Nat → List Nat
  | [] => [x]
  | y :: ys => if x = y then y :: ys else if x < y then x :: y :: ys else y :: insSortDedup x ys

/-- `sorted(list(leaders))` over the collected leader set. -/
def leadersOf (instrs : List Instr) : List Nat :=
  (leaderCandidates instrs).foldr insSortDedup []

/-- `self._offset2idx[off]`: index of the (first) instruction at `off`. -/
def idxOf : List Instr → Nat → Option Nat
  | [], _ => none
  | i :: rest, off => if i.offset = off then some 0 else (idxOf rest off).map (fun k => k + 1)

/-- Block ranges (lines 313–324): each leader takes the instruction slice from
its index up to the next leader's index (stream end for the last leader,
`sorted_instrs[start_idx:end_idx]`). A leader that is not an instruction
offset fails the whole build (KeyError in the source). -/
def mkBlocks (instrs : List Instr) : List Nat → Option (List (Nat × List Instr))
  | [] => some []
  | l :: rest =>
      match idxOf instrs l,
            (match rest with
             | [] => some instrs.length
             | l2 :: _ => idxOf instrs l2) with
      | some s, some e =>
          (mkBlocks instrs rest).map (fun bbs => (l, (instrs.drop s).take (e - s)) :: bbs)
      | _, _ => none

/-- The fall-through offset of the instruction at `off` (lines 336–339 and
343–345: `self._instrs[idx+1].offset`). -/
def fallThrough (instrs : List Instr) (off : Nat) : Option Nat :=
  (idxOf instrs off).bind (fun i => (instrs.get? (i + 1)).map (fun j => j.offset))

/-- Successor start-offsets of one block (lines 326–347). A return terminator
has no successors; a jump-family terminator contributes its integer target
(when registered) and — for *any* jump, although the source comment reads
"fallthrough for conditional jumps" — the registered fall-through offset; any
other terminator contributes the registered fall-through alone. -/
def succsFor (instrs : List Instr) (blockOffs : List Nat) (bInstrs : List Instr) : List Nat :=
  match bInstrs.getLast? with
  | none => []
  | some last =>
      if last.opname = "RETURN_VALUE" then []
      else if isJumpish last.opname then
        (match last.argval with
         | .int t => if t ∈ blockOffs then [t] else []
         | _ => []) ++
        (match fallThrough instrs last.offset with
         | some f2 => if f2 ∈ blockOffs then [f2] else []
         | none => [])
      else
        match fallThrough instrs last.offset with
        | some f2 => if f2 ∈ blockOffs then [f2] else []
        | none => []

/-- Predecessor lists (lines 349–352): iterate blocks in insertion (leader)
order; append each block's offset to every registered successor's
predecessor list, once per successor occurrence. -/
def predsFor (instrs : List Instr) (ranges : List (Nat × List Instr)) (b : Nat) : List Nat :=
  let offs := ranges.map (fun r => r.1)
  (ranges.map (fun r =>
    (succsFor instrs offs r.2).filterMap (fun s => if s = b then some r.1 else none))).flatten

/-- A decoder basic block: leader offset, instruction range, successor and
predecessor start-offset lists. -/
structure BBlock where
  start : Nat
  instrs : List Instr
  succs : List Nat
  preds : List Nat

/-- `_build_basic_blocks`: leaders, block ranges, then successor and
predecessor edges. `none` models the source raising (an unregistered leader
offset). -/
def buildBasicBlocks (instrs : List Instr) : Option (List BBlock) :=
  (mkBlocks instrs (leadersOf instrs)).map (fun ranges =>
    let offs := ranges.map (fun r => r.1)
    ranges.map (fun r =>
      { start := r.1, instrs := r.2,
        succs := succsFor instrs offs r.2,
        preds := predsFor instrs ranges r.1 }))

/-- A traced Python function: the attributes of `types.FunctionType` that the
tracer reads — parameter names (`co_varnames[:argcount]`), the snapshot of the
closure cells (`self._closed`, with unreadable cells mapped to `None`), the
globals dict, the builtins namespace, and the decoded instruction stream
(`dis.get_instructions`). -/
structure PyFun where
  params : List String
  freevars : List (String × Val)
  globalsD : List (String × Val)
  builtinsD : List (String × Val)
  instrs : List Instr

/-- The symbolic local map of a block: local name → node index. A stored
`none` is a Python `None` assigned by STORE_FAST from an empty stack. -/
abbrev LMap := List (String × Option Nat)

/-- Python `local_map.get(name)` followed by an `is None` test: collapses an
absent key and a key stored as `None`. -/
def lmGet (lm : LMap) (k : String) : Option Nat :=
  (alook lm k).getD Option.none

/-- The name payload of an instruction's `argval`. -/
def argNameOf : ArgVal → String
  | .name s => s
  | .val (.vstr s) => s
  | _ => ""

/-- The constant payload of an instruction's `argval` (LOAD_CONST). -/
def constOf : ArgVal → Val
  | .val v => v
  | .int n => .vint n
  | .name s => .vstr s
  | .none => .vnone

/-- A stand-in for Python `repr`, used only in debug node labels. -/
def reprV : Val → String
  | .vint n => toString n
  | .vfloat q => toString q.num ++ "/" ++ toString q.den
  | .vstr s => s
  | .vbool b => toString b
  | .vnone => "None"
  | _ => "obj"

/-- `Graph.create_node`: append the node, return the new graph and the node's
identity (its index). -/
def createNode (g : List Node) (n : Node) : List Node × Nat :=
  (g ++ [n], g.length)

/-- A popped-or-`None` stack slot as a node argument: `args=(val,)` where
`val` may be a Node or Python `None`. -/
def optArg : Option Nat → Arg
  | some i => .node i
  | Option.none => .lit .vnone

/-- The LOAD_GLOBAL handler's resolution (bytecode_tracer.py lines 131–141):
`fn.__globals__.get(g, None)`, falling back to `getattr(builtins, g, None)`
when that produced `None`; a non-`None` result becomes a `const` snapshot plus
a `global_eq` guard, otherwise the `const` node holds the name string itself.
Returns the node to create and the guards to append. -/
def loadGlobalResolve (gdict bdict : List (String × Val)) (g : String) : Node × List Guard :=
  let v0 := (alook gdict g).getD .vnone
  let v1 := match v0 with
    | .vnone => (alook bdict g).getD .vnone
    | w => w
  match v1 with
  | .vnone => ({ op := "const", target := .vstr g, args := [], kwargs := [], name := some g }, [])
  | w => ({ op := "const", target := w, args := [], kwargs := [], name := some g }, [.globalEq g w])

/-- In-flight state while symbolically executing one block: the (append-only)
graph, the guard list, the abstract value stack (node indices, top first) and
the block-local name map. -/
structure IState where
  graph : List Node
  guards : List Guard
  stack : List Nat
  locals : LMap

/-- Result of one symbolic instruction step: continue, block break (RETURN),
early return of the whole trace (unhandled opcode, line 264), or a Python
exception escaping `trace_function` (e.g. popping an empty stack where the
source does not test for it). -/
inductive StepRes where
  | next (s : IState)
  | blockDone (s : IState)
  | abort (graph : List Node) (guards : List Guard)
  | perr

/-- BUILD_MAP's key/value pairing of the popped items. -/
def pairUp : List Nat → List Arg
  | a :: b :: rest => .tup [.node a, .node b] :: pairUp rest
  | _ => []

/-- One instruction of the symbolic interpreter (bytecode_tracer.py lines
113–263), the source's if/elif chain in order. -/
def execInstr (fn : PyFun) (s : IState) (i : Instr) : StepRes :=
  if i.opname = "LOAD_FAST" then
    let name := argNameOf i.argval
    match lmGet s.locals name with
    | some idx => .next { s with stack := idx :: s.stack }
    | Option.none =>
        let (g2, idx) := createNode s.graph
          { op := "get_local", target := .vstr name, args := [], kwargs := [], name := some name }
        .next { s with graph := g2, stack := idx :: s.stack }
  else if i.opname = "STORE_FAST" then
    let name := argNameOf i.argval
    let val := s.stack.head?
    let (g2, _) := createNode s.graph
      { op := "store_fast", target := .vstr name, args := [optArg val], kwargs := [], name := some name }
    .next { s with graph := g2, stack := s.stack.tail, locals := aset s.locals name val }
  else if i.opname = "LOAD_CONST" then
    let c := constOf i.argval
    let (g2, idx) := createNode s.graph
      { op := "const", target := c, args := [], kwargs := [], name := some (reprV c) }
    .next { s with graph := g2, stack := idx :: s.stack }
  else if i.opname = "LOAD_GLOBAL" then
    let g := argNameOf i.argval
    let (node, gs) := loadGlobalResolve fn.globalsD fn.builtinsD g
    let (g2, idx) := createNode s.graph node
    .next { s with graph := g2, guards := s.guards ++ gs, stack := idx :: s.stack }
  else if i.opname = "LOAD_DEREF" then
    let name := argNameOf i.argval
    match (alook fn.freevars name).getD .vnone with
    | .vnone =>
        let (g2, idx) := createNode s.graph
          { op := "deref", target := .vstr name, args := [], kwargs := [], name := some name }
        .next { s with graph := g2, stack := idx :: s.stack }
    | w =>
        let (g2, idx) := createNode s.graph
          { op := "const", target := w, args := [], kwargs := [], name := some ("deref_" ++ name) }
        .next { s with graph := g2, guards := s.guards ++ [.derefEq name w], stack := idx :: s.stack }
  else if i.opname = "LOAD_ATTR" then
    let attr := argNameOf i.argval
    match s.stack with
    | [] => .perr
    | base :: rest =>
        match s.graph.get? base with
        | Option.none => .perr
        | some bnode =>
            let bobj := bnode.target
            let plain : StepRes :=
              let (g2, idx) := createNode s.graph
                { op := "get_attr", target := .vstr attr, args := [.node base], kwargs := [], name := some attr }
              .next { s with graph := g2, stack := idx :: rest }
            match bobj with
            | .vnone => plain
            | _ =>
                match hasattrV bobj attr with
                | some w =>
                    let (g2, idx) := createNode s.graph
                      { op := "const", target := w, args := [], kwargs := [],
                        name := some (pyName bobj ++ "." ++ attr) }
                    .next { s with graph := g2, guards := s.guards ++ [.attrEq base attr w], stack := idx :: rest }
                | Option.none => plain
  else if i.opname = "BUILD_LIST" then
    let cnt := i.arg.getD 0
    if s.stack.length < cnt then .perr
    else
      let elems := (s.stack.take cnt).reverse
      let (g2, idx) := createNode s.graph
        { op := "call_function", target := .vfun .listCtor, args := elems.map Arg.node,
          kwargs := [], name := some ("list_" ++ toString cnt) }
      .next { s with graph := g2, stack := idx :: s.stack.drop cnt }
  else if i.opname = "BUILD_MAP" then
    let cnt := i.arg.getD 0
    if s.stack.length < 2 * cnt then .perr
    else
      let items := (s.stack.take (2 * cnt)).reverse
      let (g2, idx) := createNode s.graph
        { op := "call_function", target := .vfun .dictCtor, args := [.tup (pairUp items)],
          kwargs := [], name := some ("map_" ++ toString cnt) }
      .next { s with graph := g2, stack := idx :: s.stack.drop (2 * cnt) }
  else if i.opname = "UNPACK_EX" then
    let a := i.arg.getD 0
    let before := a / 256
    let after := a % 256
    match s.stack with
    | [] => .perr
    | seq :: rest =>
        let step1 := (List.range before).foldl
          (fun (acc : List Node × List Nat) k =>
            let (g2, idx) := createNode acc.1
              { op := "get_index", target := .vint k, args := [.node seq], kwargs := [],
                name := some ("unpack_" ++ toString k) }
            (g2, idx :: acc.2))
          (s.graph, rest)
        let step2 :=
          if before < 255 then
            let (g2, idx) := createNode step1.1
              { op := "call_function", target := .vfun .listCtor, args := [.node seq],
                kwargs := [], name := some "unpack_star" }
            (g2, idx :: step1.2)
          else step1
        let step3 := (List.range after).foldl
          (fun (acc : List Node × List Nat) k =>
            let (g2, idx) := createNode acc.1
              { op := "get_index", target := .vint (-(((after : Int)) - k)),
                args := [.node seq], kwargs := [],
                name := some ("unpack_" ++ toString (before + k)) }
            (g2, idx :: acc.2))
          step2
        .next { s with graph := step3.1, stack := step3.2 }
  else if i.opname = "CALL_FUNCTION" ∨ i.opname = "CALL_METHOD" then
    let argc := i.arg.getD 0
    if s.stack.length < argc then .perr
    else
      match s.stack.drop argc with
      | [] => .perr
      | func :: rest2 =>
          let args := (s.stack.take argc).reverse
          match (s.graph.get? func).map (fun n => n.target) with
          | some (Val.vfun fObj) =>
              let (g2, idx) := createNode s.graph
                { op := "call_function", target := .vfun fObj, args := args.map Arg.node,
                  kwargs := [], name := some (pyName (.vfun fObj)) }
              .next { s with graph := g2, stack := idx :: rest2 }
          | some _ =>
              let (g2, idx) := createNode s.graph
                { op := "call_function", target := .vfun .callWithKwargs,
                  args := .node func :: args.map Arg.node, kwargs := [], name := some "call_gen" }
              .next { s with graph := g2, stack := idx :: rest2 }
          | Option.none => .perr
  else if i.opname = "CALL_FUNCTION_KW" then
    let argc := i.arg.getD 0
    match s.stack with
    | [] => .perr
    | kwNamesIdx :: rest1 =>
        if rest1.length < argc then .perr
        else
          let raw := (rest1.take argc).reverse
          match rest1.drop argc with
          | [] => .perr
          | func :: rest2 =>
              let kwNames := (s.graph.get? kwNamesIdx).map (fun n => n.target)
              let split : List Nat × List (String × Arg) :=
                match kwNames with
                | some (Val.vtuple names) =>
                    let k := names.length
                    (raw.take (argc - k),
                     (names.zip (raw.drop (argc - k))).filterMap (fun p =>
                       match p.1 with
                       | .vstr nm => some (nm, Arg.node p.2)
                       | _ => Option.none))
                | _ => (raw, [])
              match (s.graph.get? func).map (fun n => n.target) with
              | some (Val.vfun fObj) =>
                  let (g2, idx) := createNode s.graph
                    { op := "call_function", target := .vfun (.bound fObj),
                      args := split.1.map Arg.node, kwargs := split.2, name := some "call_kw" }
                  .next { s with graph := g2, stack := idx :: rest2 }
              | some _ =>
                  let (g2, idx) := createNode s.graph
                    { op := "call_function", target := .vfun .callWithKwargs,
                      args := .node func :: split.1.map Arg.node, kwargs := split.2,
                      name := some "call_kw" }
                  .next { s with graph := g2, stack := idx :: rest2 }
              | Option.none => .perr
  else if i.opname = "CALL_FUNCTION_EX" then
    let flags := i.arg.getD 0
    if flags % 2 = 1 then
      match s.stack with
      | kwargsN :: argsN :: func :: rest2 =>
          let (g2, idx) := createNode s.graph
            { op := "call_function", target := .vfun .callWithKwargs,
              args := [.node func, .node argsN, .node kwargsN], kwargs := [],
              name := some "call_ex" }
          .next { s with graph := g2, stack := idx :: rest2 }
      | _ => .perr
    else
      match s.stack with
      | argsN :: func :: rest2 =>
          let (g2, idx) := createNode s.graph
            { op := "call_function", target := .vfun .callWithKwargs,
              args := [.node func, .node argsN, .lit .vnone], kwargs := [],
              name := some "call_ex" }
          .next { s with graph := g2, stack := idx :: rest2 }
      | _ => .perr
  else if i.opname = "BINARY_ADD" ∨ i.opname = "BINARY_MULTIPLY" ∨
          i.opname = "BINARY_SUBTRACT" ∨ i.opname = "BINARY_TRUE_DIVIDE" then
    match s.stack with
    | right :: left :: rest2 =>
        let op : FuncId :=
          if i.opname = "BINARY_ADD" then .binAdd
          else if i.opname = "BINARY_MULTIPLY" then .binMul
          else if i.opname = "BINARY_SUBTRACT" then .binSub
          else .binDiv
        let (g2, idx) := createNode s.graph
          { op := "call_function", target := .vfun op, args := [.node left, .node right],
            kwargs := [], name := some "binop" }
        .next { s with graph := g2, stack := idx :: rest2 }
    | _ => .perr
  else if i.opname = "POP_JUMP_IF_FALSE" ∨ i.opname = "POP_JUMP_IF_TRUE" then
    let cond := s.stack.head?
    .next { s with stack := s.stack.tail, guards := s.guards ++ [.isBool cond] }
  else if i.opname = "RETURN_VALUE" then
    let val := s.stack.head?
    let (g2, _) := createNode s.graph
      { op := "output", target := .vstr "output", args := [optArg val], kwargs := [],
        name := some "return" }
    .blockDone { s with graph := g2, stack := s.stack.tail }
  else if i.opname = "POP_TOP" then
    .next { s with stack := s.stack.tail }
  else
    .abort s.graph (s.guards ++ [.unhandledOpcode i.opname i.offset])

/-- Outcome of symbolically executing one block's instruction list. -/
inductive BlockRes where
  | done (graph : List Node) (guards : List Guard) (locals : LMap)
  | abort (graph : List Node) (guards : List Guard)
  | perr

/-- Symbolic execution of a block's instructions (the `for instr in bb.instrs`
loop): RETURN_VALUE breaks, an unhandled opcode returns from the whole trace,
the final local map is the block's out-state. -/
def execBlock (fn : PyFun) : IState → List Instr → BlockRes
  | s, [] => .done s.graph s.guards s.locals
  | s, i :: rest =>
      match execInstr fn s i with
      | .next s2 => execBlock fn s2 rest
      | .blockDone s2 => .done s2.graph s2.guards s2.locals
      | .abort g gs => .abort g gs
      | .perr => .perr

/-- Merging one local name across predecessor states (the body of the
`for k in keys` loop, lines 88–107). `state` is the partially built merged
map — the source reads the φ condition out of it under the fixed name
"cond". `vals[1]` is read with a default, matching the source's reachable
cases (a disagreeing merge implies at least two predecessor states). -/
def mergeKey (graph : List Node) (guards : List Guard) (state : LMap)
    (predStates : List LMap) (k : String) : List Node × List Guard × LMap :=
  let vals := predStates.map (fun ps => lmGet ps k)
  match vals with
  | [] => (graph, guards, state)
  | first :: _ =>
      if vals.all (fun v => v = first) then (graph, guards, aset state k first)
      else
        match lmGet state "cond" with
        | Option.none =>
            (graph, guards ++ [.phiUnmerged k vals], aset state k first)
        | some cond =>
            let v0 := vals.getD 0 Option.none
            let v1 := vals.getD 1 Option.none
            let (g2, idx) := createNode graph
              { op := "call_function", target := .vfun .phiSelect,
                args := [.node cond, optArg v0, optArg v1], kwargs := [], name := Option.none }
            (g2, guards, aset state k (some idx))

/-- Merge of the predecessor in-states (lines 80–107). The source iterates a
Python set built as the union of the key sets; set iteration order is
unspecified in the host, and the model fixes first-occurrence order of the
concatenated key lists (no settled claim depends on this order). -/
def mergeStates (graph : List Node) (guards : List Guard) (predStates : List LMap) :
    List Node × List Guard × LMap :=
  let keys := ((predStates.map (fun ps => ps.map (fun p => p.1))).flatten).dedup
  keys.foldl
    (fun acc k => mergeKey acc.1 acc.2.1 acc.2.2 predStates k)
    (graph, guards, ([] : LMap))

/-- The walk's accumulated state: graph, guards, per-block in-states
(`block_in_state`), per-block out-states (`bb._out_state`, write-only in the
source) and the visited set (in visit order). -/
structure WSt where
  graph : List Node
  guards : List Guard
  inStates : List (Nat × LMap)
  outStates : List (Nat × LMap)
  visited : List Nat

/-- The worklist loop of `trace_function` (lines 70–266). The
successor-enqueue loop (source lines 268–271) is indented at function level —
it runs only after the `while` has exhausted the worklist, so nothing is ever
appended while the loop runs and the recursion is structural on the initial
worklist. The Boolean result records an early return (unhandled opcode);
`none` models a Python exception escaping `trace_function`. -/
def walkLoop (fn : PyFun) (blocks : List BBlock) : List Nat → WSt → Option (WSt × Bool)
  | [], st => some (st, false)
  | off :: rest, st =>
      if off ∈ st.visited then walkLoop fn blocks rest st
      else
        let st1 := { st with visited := st.visited ++ [off] }
        match blocks.find? (fun b => b.start = off) with
        | Option.none => Option.none
        | some bb =>
            let merged :=
              if bb.preds.isEmpty then (st1.graph, st1.guards, ([] : LMap))
              else
                let predStates := bb.preds.filterMap (fun p => alook st1.inStates p)
                if predStates.isEmpty then (st1.graph, st1.guards, ([] : LMap))
                else mergeStates st1.graph st1.guards predStates
            let state := merged.2.2
            let st2 := { st1 with graph := merged.1, guards := merged.2.1, inStates := st1.inStates ++ [(off, state)] }
            match execBlock fn { graph := st2.graph, guards := st2.guards, stack := [], locals := state } bb.instrs with
            | .done g3 gs3 lm =>
                walkLoop fn blocks rest
                  { st2 with graph := g3, guards := gs3, outStates := st2.outStates ++ [(off, lm)] }
            | .abort g3 gs3 => some ({ st2 with graph := g3, guards := gs3 }, true)
            | .perr => Option.none

/-- `trace_function` (lines 43–273): build the basic blocks, snapshot the
closure (already part of `PyFun`), create a placeholder per formal parameter,
then run the worklist walk seeded with `min(self._blocks.keys())` (the blocks
are produced in ascending leader order, so the first block's start is the
minimum; an empty stream leaves no blocks and the `min` raises). `none`
models `trace_function` raising. -/
def traceWalk (fn : PyFun) : Option (WSt × Bool) := do
  let blocks ← buildBasicBlocks fn.instrs
  let phGraph := fn.params.map (fun p =>
    ({ op := "placeholder", target := .vstr p, args := [], kwargs := [], name := some p } : Node))
  match blocks with
  | [] => Option.none
  | b0 :: _ =>
      walkLoop fn blocks [b0.start]
        { graph := phGraph, guards := [], inStates := [], outStates := [], visited := [] }

/-- The pair `trace_function` returns: `(self.graph, self._guards)` — the same
pair both on normal completion and on the unhandled-opcode early return. -/
def traceFunction (fn : PyFun) : Option (List Node × List Guard) :=
  (traceWalk fn).map (fun r => (r.1.graph, r.1.guards))

/-- A compiled guard check (`_make_guard_checks`): the data captured by the
produced closure. `attrEq`'s base name and `isBool`'s condition name are the
node's `name` attribute read at compile time; `none` makes the closure return
constant `False`. -/
inductive Check where
  | globalEq (name : String) (v : Val)
  | derefEq (name : String) (v : Val)
  | attrEq (baseName : Option String) (attr : String) (v : Val)
  | isBool (condName : Option String)
  | alwaysFalse

/-- Evaluate one compiled guard check against the binding map — the closure
bodies of `_make_guard_checks`, with `gdict` the original function's globals
captured at trace time. The source's `is` identity tests are `valBeq`;
`bindings.get(base_name, object())` yields a fresh object with none of the
probed attributes, hence the `.vnone` default. -/
def runCheck (gdict bindings : List (String × Val)) : Check → Bool
  | .globalEq n v => valBeq ((alook gdict n).getD .vnone) v
  | .derefEq n v => valBeq ((alook gdict n).getD v) v
  | .attrEq bn attr v =>
      match bn with
      | Option.none => false
      | some b =>
          let bval := match alook bindings b with
            | some bv => (hasattrV bv attr).getD .vnone
            | Option.none => .vnone
          valBeq bval v
  | .isBool cn =>
      match cn with
      | Option.none => false
      | some c =>
          match alook bindings c with
          | some (.vbool _) => true
          | _ => false
  | .alwaysFalse => false

/-- `_make_guard_checks` (dynamo_manager lines 26–81): compile the tracer's
guard records into checks, in order. `attr_eq` reads
`getattr(base_node, "name", None)`; `is_bool` reads the cond node's name
(Python `None` as the cond gives a constant-False closure). `phi_unmerged`,
`unhandled_opcode` and unknown tags compile to constant False. -/
def makeGuardChecks (graph : List Node) : List Guard → List Check
  | [] => []
  | g :: rest =>
      (match g with
       | .globalEq n v => Check.globalEq n v
       | .derefEq n v => Check.derefEq n v
       | .attrEq b attr v => Check.attrEq ((graph.get? b).bind (fun nd => nd.name)) attr v
       | .isBool c => Check.isBool (c.bind (fun idx => (graph.get? idx).bind (fun nd => nd.name)))
       | .phiUnmerged _ _ => Check.alwaysFalse
       | .unhandledOpcode _ _ => Check.alwaysFalse) :: makeGuardChecks graph rest

/-- The wrapper's guard loop (dynamo_manager lines 154–167): evaluate the
check closures against the binding map in insertion order; the first `False`
result stops the loop. Returns how many checks were evaluated together with
the outcome (`true` = all passed, `false` = stopped at a failing check). The
closures produced by `_make_guard_checks` are pure, so the source's
try/except around each call has nothing to catch. -/
def guardLoop (gdict bindings : List (String × Val)) : List Check → Nat × Bool
  | [] => (0, true)
  | c :: rest =>
      if runCheck gdict bindings c then
        let r := guardLoop gdict bindings rest
        (r.1 + 1, r.2)
      else (1, false)

/-- Argument binding in the wrapper (lines 136–152): bind positional actuals
to the original's parameter names via its signature. The claims' functions
have plain positional parameters without defaults, so a complete call binds
pairwise and anything else takes the delegate-to-original path. -/
def bindArgs (params : List String) (args : List Val) : Option (List (String × Val)) :=
  if params.length = args.length then some (params.zip args) else Option.none

/-- The wrapper / retrace dispatch (`_make_wrapper_from_gm_retracing` together
with `_invalidate_and_retrace`), one recursion level per wrapper invocation:
bind the arguments (failure delegates to the original), run the guard loop,
and on success execute the IR. A guard failure — and likewise *any* executor
exception, the source catches `Exception` — invalidates and retraces; tracing
is deterministic for a fixed function and globals, so the freshly installed
wrapper is this same dispatch again, entered with the same arguments
(`return new_wrapper(*args, **kwargs)`). `none` means the call never returns:
every level immediately re-enters the next wrapper (RecursionError in the
host). `origSem` is the host semantics of the original function; a trace that
raises falls back through the except-path to the original's behaviour. -/
def wrapperCall (origSem : List Val → Except ExecErr Val) (fn : PyFun) :
    Nat → List Val → Option (Except ExecErr Val)
  | 0, _ => Option.none
  | Nat.succ fuel, args =>
      match bindArgs fn.params args with
      | Option.none => some (origSem args)
      | some bindings =>
          match traceFunction fn with
          | Option.none => some (origSem args)
          | some (graph, guards) =>
              let checks := makeGuardChecks graph guards
              if (guardLoop fn.globalsD bindings checks).2 then
                match runWithBindings graph bindings with
                | .ok v => some (.ok v)
                | .error _ => wrapperCall origSem fn fuel args
              else wrapperCall origSem fn fuel args

/-- `def ident(x): return x` — decoded stream `LOAD_FAST x; RETURN_VALUE`. -/
def identFn : PyFun :=
  { params := ["x"], freevars := [], globalsD := [], builtinsD := [],
    instrs :=
      [ { offset := 0, opname := "LOAD_FAST", arg := some 0, argval := .name "x" },
        { offset := 2, opname := "RETURN_VALUE", arg := Option.none, argval := .none } ] }

/-- Host semantics of `ident`: return the argument. -/
def identOrig : List Val → Except ExecErr Val
  | [v] => .ok v
  | _ => .error .typeError

/-- `def negate(x): return -x` — the stream `LOAD_FAST x; UNARY_NEGATIVE;
RETURN_VALUE`, whose middle opcode is outside the tracer's supported family. -/
def unhFn : PyFun :=
  { params := ["x"], freevars := [], globalsD := [], builtinsD := [],
    instrs :=
      [ { offset := 0, opname := "LOAD_FAST", arg := some 0, argval := .name "x" },
        { offset := 2, opname := "UNARY_NEGATIVE", arg := Option.none, argval := .none },
        { offset := 4, opname := "RETURN_VALUE", arg := Option.none, argval := .none } ] }

/-- Host semantics of `negate`: arithmetic negation. -/
def negOrig : List Val → Except ExecErr Val
  | [.vint n] => .ok (.vint (-n))
  | [.vfloat q] => .ok (.vfloat (-q))
  | _ => .error .typeError

/-- A two-block zero-parameter function: store a local in the entry block and
read it in the fall-through join block —
`LOAD_CONST 5; STORE_FAST z; LOAD_FAST z; POP_JUMP_IF_FALSE 10;
LOAD_CONST 1; │ LOAD_FAST z; RETURN_VALUE` (offset 10 is the jump target, so
a second block starts there). -/
def storeJoinFn : PyFun :=
  { params := [], freevars := [], globalsD := [], builtinsD := [],
    instrs :=
      [ { offset := 0, opname := "LOAD_CONST", arg := some 0, argval := .val (.vint 5) },
        { offset := 2, opname := "STORE_FAST", arg := some 0, argval := .name "z" },
        { offset := 4, opname := "LOAD_FAST", arg := some 0, argval := .name "z" },
        { offset := 6, opname := "POP_JUMP_IF_FALSE", arg := some 5, argval := .int 10 },
        { offset := 8, opname := "LOAD_CONST", arg := some 1, argval := .val (.vint 1) },
        { offset := 10, opname := "LOAD_FAST", arg := some 0, argval := .name "z" },
        { offset := 12, opname := "RETURN_VALUE", arg := Option.none, argval := .none } ] }

/-- A one-parameter two-block function whose second block is CFG-reachable by
fall-through from the entry block:
`LOAD_FAST x; POP_JUMP_IF_FALSE 6; LOAD_CONST 1; │ LOAD_CONST 2;
RETURN_VALUE` (offset 6 is the jump target, starting the second block). -/
def twoBlockFn : PyFun :=
  { params := ["x"], freevars := [], globalsD := [], builtinsD := [],
    instrs :=
      [ { offset := 0, opname := "LOAD_FAST", arg := some 0, argval := .name "x" },
        { offset := 2, opname := "POP_JUMP_IF_FALSE", arg := some 3, argval := .int 6 },
        { offset := 4, opname := "LOAD_CONST", arg := some 0, argval := .val (.vint 1) },
        { offset := 6, opname := "LOAD_CONST", arg := some 1, argval := .val (.vint 2) },
        { offset := 8, opname := "RETURN_VALUE", arg := Option.none, argval := .none } ] }

/-- A stream ending in an unconditional jump over dead code:
`LOAD_FAST x; JUMP_ABSOLUTE 6; LOAD_CONST 1; RETURN_VALUE` — offsets 4 (after
the jump) and 6 (its target) are both leaders. -/
def jumpStream : List Instr :=
  [ { offset := 0, opname := "LOAD_FAST", arg := some 0, argval := .name "x" },
    { offset := 2, opname := "JUMP_ABSOLUTE", arg := some 3, argval := .int 6 },
    { offset := 4, opname := "LOAD_CONST", arg := some 0, argval := .val (.vint 1) },
    { offset := 6, opname := "RETURN_VALUE", arg := Option.none, argval := .none } ]

/-- `def local_pass(x): y = x; return y` —
`LOAD_FAST x; STORE_FAST y; LOAD_FAST y; RETURN_VALUE`. -/
def localPassFn : PyFun :=
  { params := ["x"], freevars := [], globalsD := [], builtinsD := [],
    instrs :=
      [ { offset := 0, opname := "LOAD_FAST", arg := some 0, argval := .name "x" },
        { offset := 2, opname := "STORE_FAST", arg := some 0, argval := .name "y" },
        { offset := 4, opname := "LOAD_FAST", arg := some 0, argval := .name "y" },
        { offset := 6, opname := "RETURN_VALUE", arg := Option.none, argval := .none } ] }

/-- A hand-built graph containing a `guard` node before the output. -/
def guardGraph : List Node :=
  [ { op := "const", target := .vint 1, args := [], kwargs := [], name := Option.none },
    { op := "guard", target := .vstr "g", args := [], kwargs := [], name := Option.none },
    { op := "output", target := .vstr "output", args := [.node 0], kwargs := [], name := some "return" } ]

/-- `simple_forward(x, scale, bias) = ops.add(ops.add(ops.mul(x, scale), bias), 1.0)`
(examples/simple_model.py), decoded with the attribute-load / positional-call
opcodes of the tracer's supported family (spec §6; the module accesses
compile to LOAD_GLOBAL ops; LOAD_ATTR …; the calls to CALL_FUNCTION). -/
def simpleFF : PyFun :=
  { params := ["x", "scale", "bias"], freevars := [],
    globalsD := [("ops", .vmodule .opsMod)], builtinsD := [],
    instrs :=
      [ { offset := 0, opname := "LOAD_GLOBAL", arg := some 0, argval := .name "ops" },
        { offset := 2, opname := "LOAD_ATTR", arg := some 0, argval := .name "mul" },
        { offset := 4, opname := "LOAD_FAST", arg := some 0, argval := .name "x" },
        { offset := 6, opname := "LOAD_FAST", arg := some 1, argval := .name "scale" },
        { offset := 8, opname := "CALL_FUNCTION", arg := some 2, argval := .none },
        { offset := 10, opname := "STORE_FAST", arg := some 3, argval := .name "a" },
        { offset := 12, opname := "LOAD_GLOBAL", arg := some 0, argval := .name "ops" },
        { offset := 14, opname := "LOAD_ATTR", arg := some 1, argval := .name "add" },
        { offset := 16, opname := "LOAD_FAST", arg := some 3, argval := .name "a" },
        { offset := 18, opname := "LOAD_FAST", arg := some 2, argval := .name "bias" },
        { offset := 20, opname := "CALL_FUNCTION", arg := some 2, argval := .none },
        { offset := 22, opname := "STORE_FAST", arg := some 4, argval := .name "b" },
        { offset := 24, opname := "LOAD_GLOBAL", arg := some 0, argval := .name "ops" },
        { offset := 26, opname := "LOAD_ATTR", arg := some 1, argval := .name "add" },
        { offset := 28, opname := "LOAD_FAST", arg := some 4, argval := .name "b" },
        { offset := 30, opname := "LOAD_CONST", arg := some 1, argval := .val (.vfloat 1) },
        { offset := 32, opname := "CALL_FUNCTION", arg := some 2, argval := .none },
        { offset := 34, opname := "RETURN_VALUE", arg := Option.none, argval := .none } ] }

/-- The guard list the tracer emits for `simpleFF` (checked by `rfl` below):
a `global_eq` and an `attr_eq` for every `ops.…` access. -/
def simpleFFGuards : List Guard :=
  [ .globalEq "ops" (.vmodule .opsMod), .attrEq 3 "mul" (.vfun .opsMul),
    .globalEq "ops" (.vmodule .opsMod), .attrEq 9 "add" (.vfun .opsAdd),
    .globalEq "ops" (.vmodule .opsMod), .attrEq 14 "add" (.vfun .opsAdd) ]

end DemoFx

namespace DemoFx

/-! ## Claim theorems -/

/-- C1 (refuted at the failing input — the claim is the spec's central
contract, so the code is the defect): the wrapper is *not* semantically
transparent. For `ident(x): return x`, wrapped and called with `5` under
unchanged globals, all (zero) guards pass and the executor returns the
string `"x"`: the interpreter never binds the placeholder nodes into the
entry local map, so `LOAD_FAST x` becomes a `get_local` node, which the
executor evaluates to its target — the *name string* — while the original
returns `5`. -/
theorem c1_wrapper_not_transparent :
    wrapperCall identOrig identFn 1 [.vint 5] = some (.ok (.vstr "x")) ∧
    identOrig [.vint 5] = .ok (.vint 5) ∧
    Val.vstr "x" ≠ Val.vint 5 :=
  ⟨rfl, rfl, fun h => Val.noConfusion h⟩

/-- C2 (refuted for `store_fast`, confirmed for `guard`): the executor has no
`store_fast` case, so the graph traced from `local_pass(x): y = x; return y`
— which contains a `store_fast` node before its output — raises
NotImplementedError instead of passing over it; `guard` nodes are indeed
passed over without effect and execution continues to the output node. -/
theorem c2_executor_store_fast_raises :
    (traceFunction localPassFn).map (fun r => runWithBindings r.1 [("x", .vint 7)]) =
      some (.error (.unsupportedOp "store_fast")) ∧
    runWithBindings guardGraph [] = .ok (.vint 1) :=
  ⟨rfl, rfl⟩

/-- C3 (refuted at the failing input): for `storeJoinFn` the block at offset
10 has the visited entry block as its only predecessor, and that
predecessor's out-state is `{z ↦ node 0}` — yet the walk assigns the block at
10 no in-state at all (it is never visited), and the merge the source would
perform reads `block_in_state` (the predecessors' *entry* states, here the
empty map), never the recorded out-states, so it could not produce the
out-state merge either. -/
theorem c3_in_state_not_merge_of_out_states :
    (traceWalk storeJoinFn).map (fun r =>
      (r.1.visited, alook r.1.inStates 10, alook r.1.outStates 0)) =
      some ([0], Option.none, some [("z", some 0)]) ∧
    (buildBasicBlocks storeJoinFn.instrs).map (fun bbs =>
      bbs.map (fun b => (b.start, b.preds))) = some [(0, []), (10, [0])] ∧
    (mergeStates [] [] [[]]).2.2 = [] ∧
    ([] : LMap) ≠ [("z", some 0)] :=
  ⟨rfl, rfl, rfl, by decide⟩

/-- C4 (refuted at the failing input — the spec itself flags the
block-indentation bug and declares the intended behaviour): in `twoBlockFn`
the block at offset 6 is a successor of the entry block, yet the walk's
visited set is exactly `[0]` — the successor-enqueue loop sits outside the
`while`, so no block beyond the entry is ever symbolically executed. -/
theorem c4_walk_visits_only_entry :
    (buildBasicBlocks twoBlockFn.instrs).map (fun bbs =>
      bbs.map (fun b => (b.start, b.succs))) = some [(0, [6]), (6, [])] ∧
    (traceWalk twoBlockFn).map (fun r => r.1.visited) = some [0] ∧
    (6 : Nat) ∉ ([0] : List Nat) :=
  ⟨rfl, rfl, by decide⟩

/-- C5 counterexample: in `twoBlockFn`'s stream the instruction at offset 4
immediately follows the conditional branch `POP_JUMP_IF_FALSE` at offset 2,
but the computed leader set is `[0, 6]` — followers of *conditional* branches
are not made leaders (only `RETURN_VALUE`, `JUMP_ABSOLUTE` and `JUMP_FORWARD`
start a block after themselves). -/
theorem c5_conditional_follower_not_leader :
    twoBlockFn.instrs.get? 1 =
      some { offset := 2, opname := "POP_JUMP_IF_FALSE", arg := some 3, argval := .int 6 } ∧
    twoBlockFn.instrs.get? 2 =
      some { offset := 4, opname := "LOAD_CONST", arg := some 0, argval := .val (.vint 1) } ∧
    leadersOf twoBlockFn.instrs = [0, 6] ∧
    (4 : Nat) ∉ leadersOf twoBlockFn.instrs := by
  refine ⟨rfl, rfl, rfl, ?_⟩
  intro h
  rw [show leadersOf twoBlockFn.instrs = [0, 6] from rfl] at h
  simp at h

/-- C6 (refuted at the failing input — the source's own comment says
"fallthrough for conditional jumps" but the code appends the fall-through for
*every* jump): in `jumpStream` the entry block's terminator is the
unconditional `JUMP_ABSOLUTE 6`, yet its successor list is `[6, 4]` — the
jump target *and* the fall-through — not exactly the jump target. -/
theorem c6_unconditional_jump_two_successors :
    jumpStream.get? 1 =
      some { offset := 2, opname := "JUMP_ABSOLUTE", arg := some 3, argval := .int 6 } ∧
    (buildBasicBlocks jumpStream).map (fun bbs =>
      bbs.map (fun b => (b.start, b.succs))) = some [(0, [6, 4]), (4, [6]), (6, [])] ∧
    ([6, 4] : List Nat) ≠ [6] :=
  ⟨rfl, rfl, by decide⟩

/-- Index of the first check that evaluates to `False` on the given bindings
(`none` when every check passes). -/
def firstFailIdx (gdict bindings : List (String × Val)) : List Check → Option Nat
  | [] => Option.none
  | c :: rest =>
      if runCheck gdict bindings c then (firstFailIdx gdict bindings rest).map (fun k => k + 1)
      else some 0

/-- C7 (confirmed): the wrapper evaluates the guard closures against the
binding map in insertion order; when every check passes the loop evaluates
all of them and reports success; when some check fails, the loop evaluates
exactly the checks up to and including the first failing one (so no later
closure is evaluated on that invocation) and reports failure; and a failing
guard loop makes the wrapper invalidate-and-retrace — its invocation equals
re-entering the freshly installed wrapper with the same arguments. -/
theorem c7_guard_order (gdict bindings : List (String × Val)) (checks : List Check) :
    (firstFailIdx gdict bindings checks = Option.none →
       guardLoop gdict bindings checks = (checks.length, true) ∧
       ∀ c ∈ checks, runCheck gdict bindings c = true) ∧
    (∀ k, firstFailIdx gdict bindings checks = some k →
       guardLoop gdict bindings checks = (k + 1, false) ∧
       (∃ c, checks.get? k = some c ∧ runCheck gdict bindings c = false) ∧
       (∀ j c, j < k → checks.get? j = some c → runCheck gdict bindings c = true)) ∧
    (∀ origSem fn args bs fuel graph guards,
       bindArgs fn.params args = some bs →
       traceFunction fn = some (graph, guards) →
       (guardLoop fn.globalsD bs (makeGuardChecks graph guards)).2 = false →
       wrapperCall origSem fn (fuel + 1) args = wrapperCall origSem fn fuel args) := by
  refine ⟨?_, ?_, ?_⟩
  · induction checks with
    | nil => intro _; exact ⟨rfl, by intro c hc; cases hc⟩
    | cons c rest ih =>
        intro h
        cases hc : runCheck gdict bindings c with
        | true =>
            have hrest : firstFailIdx gdict bindings rest = Option.none := by
              simp only [firstFailIdx, hc, if_true] at h
              cases hh : firstFailIdx gdict bindings rest with
              | none => rfl
              | some k => rw [hh] at h; simp at h
            obtain ⟨h1, h2⟩ := ih hrest
            constructor
            · simp only [guardLoop, hc, if_true, h1, List.length_cons]
            · intro d hd
              cases hd with
              | head => exact hc
              | tail _ hd2 => exact h2 d hd2
        | false =>
            simp [firstFailIdx, hc] at h
  · induction checks with
    | nil => intro k h; cases h
    | cons c rest ih =>
        intro k h
        cases hc : runCheck gdict bindings c with
        | true =>
            simp only [firstFailIdx, hc, if_true] at h
            cases hh : firstFailIdx gdict bindings rest with
            | none => rw [hh] at h; simp at h
            | some k2 =>
                rw [hh] at h
                simp at h
                obtain ⟨h1, h2, h3⟩ := ih k2 hh
                refine ⟨?_, ?_, ?_⟩
                · simp only [guardLoop, hc, if_true, h1]
                  rw [show k = k2 + 1 from by omega]
                · rw [show k = k2 + 1 from by omega]
                  exact h2
                · intro j d hj hd
                  cases j with
                  | zero =>
                      simp only [List.get?] at hd
                      cases hd
                      exact hc
                  | succ j2 =>
                      exact h3 j2 d (by omega) hd
        | false =>
            simp only [firstFailIdx, hc] at h
            simp at h
            subst h
            refine ⟨?_, ⟨c, rfl, hc⟩, ?_⟩
            · simp [guardLoop, hc]
            · intro j d hj hd
              omega
  · intro origSem fn args bs fuel graph guards hb ht hg
    have hstep : wrapperCall origSem fn (fuel + 1) args =
        (if (guardLoop fn.globalsD bs (makeGuardChecks graph guards)).2 then
           match runWithBindings graph bs with
           | .ok v => some (.ok v)
           | .error _ => wrapperCall origSem fn fuel args
         else wrapperCall origSem fn fuel args) := by
      show (match bindArgs fn.params args with
        | Option.none => some (origSem args)
        | some bindings2 =>
            match traceFunction fn with
            | Option.none => some (origSem args)
            | some (graph2, guards2) =>
                if (guardLoop fn.globalsD bindings2 (makeGuardChecks graph2 guards2)).2 then
                  match runWithBindings graph2 bindings2 with
                  | .ok v => some (.ok v)
                  | .error _ => wrapperCall origSem fn fuel args
                else wrapperCall origSem fn fuel args) = _
      rw [hb, ht]
    rw [hstep, hg]
    simp

/-- Witness for `c7_guard_order` at concrete inputs: two constant-False
checks evaluate as exactly one evaluation and failure, and a failing guard
loop for the traced `unhFn` makes the wrapper at fuel 1 coincide with the
wrapper at fuel 0. -/
theorem c7_guard_order_witness :
    guardLoop [] [] [Check.alwaysFalse, Check.alwaysFalse] = (1, false) ∧
    wrapperCall negOrig unhFn 1 [.vint 3] = wrapperCall negOrig unhFn 0 [.vint 3] := by
  constructor
  · exact ((c7_guard_order [] [] [Check.alwaysFalse, Check.alwaysFalse]).2.1 0 rfl).1
  · exact (c7_guard_order unhFn.globalsD [("x", .vint 3)] []).2.2 negOrig unhFn [.vint 3]
      [("x", .vint 3)] 0
      [ { op := "placeholder", target := .vstr "x", args := [], kwargs := [], name := some "x" },
        { op := "get_local", target := .vstr "x", args := [], kwargs := [], name := some "x" } ]
      [.unhandledOpcode "UNARY_NEGATIVE" 2] rfl rfl rfl

/-- C8 (refuted at the failing input — the spec's fallback table is the
intent): tracing `negate(x): return -x` records the `unhandled_opcode` guard
and aborts, and a wrapper is installed; but a call of that wrapper never
delegates to the original. Its single guard check is constant `False`, so the
wrapper invalidates and retraces, the retrace (deterministically) reinstalls
an identical wrapper, and the wrapper immediately re-enters it with the same
arguments: at every fuel the call is still running (`none`), i.e. the mutual
wrapper/retrace recursion never terminates, while the original simply returns
`-3`. -/
theorem c8_unhandled_retrace_never_delegates :
    (∀ fuel, wrapperCall negOrig unhFn fuel [.vint 3] = Option.none) ∧
    (traceFunction unhFn).map (fun r => r.2) =
      some [.unhandledOpcode "UNARY_NEGATIVE" 2] ∧
    negOrig [.vint 3] = .ok (.vint (-3)) := by
  refine ⟨?_, rfl, rfl⟩
  intro fuel
  induction fuel with
  | zero => rfl
  | succ n ih =>
      calc wrapperCall negOrig unhFn (n + 1) [.vint 3]
          = wrapperCall negOrig unhFn n [.vint 3] := rfl
        _ = Option.none := ih

/-- C9 counterexample: tracing the modelled `simple_forward` stream yields the
six-element guard list `simpleFFGuards` (a `global_eq` plus an `attr_eq` per
`ops.…` access), which is not the empty guard list the claim asserts. -/
theorem c9_guards_not_empty :
    (traceFunction simpleFF).map (fun r => r.2) = some simpleFFGuards ∧
    simpleFFGuards ≠ [] :=
  ⟨rfl, fun h => List.noConfusion h⟩

/-- C9 amended (proved): tracing `simple_forward` yields exactly three
`call_function` nodes whose targets are `ops.mul`, `ops.add`, `ops.add` (in
order) and exactly one `output` node — but the guard list is `simpleFFGuards`
(six guards, not empty), and executing the trace with bindings
`(3.0, 2.0, 0.5)` does not return `7.5`: the parameter loads became
`get_local` nodes, the executor evaluates those to their name strings, and
the `mul` target raises a TypeError on `"x" * "scale"`. -/
theorem c9_simple_forward_amended :
    (traceFunction simpleFF).map (fun r =>
      (r.1.countP (fun n => n.op = "call_function"),
       r.1.filterMap (fun n => if n.op = "call_function" then some n.target else Option.none),
       r.1.countP (fun n => n.op = "output"),
       r.2,
       runWithBindings r.1 [("x", .vfloat 3), ("scale", .vfloat 2), ("bias", .vfloat (1/2))])) =
    some (3, [.vfun .opsMul, .vfun .opsAdd, .vfun .opsAdd], 1, simpleFFGuards,
          .error .typeError) := rfl

/-- Looking up an erased key yields nothing. -/
theorem alook_aerase {κ α : Type} [DecidableEq κ] (l : List (κ × α)) (k : κ) :
    alook (aerase l k) k = Option.none := by
  induction l with
  | nil => rfl
  | cons p rest ih =>
      by_cases h : p.1 = k
      · simpa [aerase, h] using ih
      · simp [aerase, alook, h, ih]

/-- C10 (confirmed): a trace-time global bound to `None` is treated by
LOAD_GLOBAL exactly like an undefined name — the resolution coincides with
the resolution after deleting the binding, every guard it can emit snapshots
a non-`None` value under the builtins fallback (never a `None` snapshot), and
when the builtins lookup also fails the handler emits no guard and pushes a
`const` node whose target is the name string itself. -/
theorem c10_none_global_treated_as_undefined (gd bd : List (String × Val)) (g : String)
    (h : alook gd g = some .vnone) :
    loadGlobalResolve gd bd g = loadGlobalResolve (aerase gd g) bd g ∧
    (∀ gl ∈ (loadGlobalResolve gd bd g).2, ∃ w, gl = .globalEq g w ∧ w ≠ .vnone) ∧
    ((alook bd g).getD .vnone = .vnone →
      (loadGlobalResolve gd bd g).2 = [] ∧
      (loadGlobalResolve gd bd g).1.op = "const" ∧
      (loadGlobalResolve gd bd g).1.target = .vstr g) := by
  have hsame : loadGlobalResolve gd bd g = loadGlobalResolve (aerase gd g) bd g := by
    unfold loadGlobalResolve
    rw [h, alook_aerase]
    rfl
  refine ⟨hsame, ?_, ?_⟩
  · intro gl hgl
    unfold loadGlobalResolve at hgl
    rw [h] at hgl
    simp only [Option.getD_some] at hgl
    cases hb : (alook bd g).getD .vnone with
    | vnone => rw [hb] at hgl; simp at hgl
    | vbool b => rw [hb] at hgl; simp at hgl; exact ⟨.vbool b, by simp [hgl]⟩
    | vint n => rw [hb] at hgl; simp at hgl; exact ⟨.vint n, by simp [hgl]⟩
    | vfloat q => rw [hb] at hgl; simp at hgl; exact ⟨.vfloat q, by simp [hgl]⟩
    | vstr s2 => rw [hb] at hgl; simp at hgl; exact ⟨.vstr s2, by simp [hgl]⟩
    | vfun f => rw [hb] at hgl; simp at hgl; exact ⟨.vfun f, by simp [hgl]⟩
    | vmodule m => rw [hb] at hgl; simp at hgl; exact ⟨.vmodule m, by simp [hgl]⟩
    | vtuple xs => rw [hb] at hgl; simp at hgl; exact ⟨.vtuple xs, by simp [hgl]⟩
    | vlist xs => rw [hb] at hgl; simp at hgl; exact ⟨.vlist xs, by simp [hgl]⟩
    | vdict kvs => rw [hb] at hgl; simp at hgl; exact ⟨.vdict kvs, by simp [hgl]⟩
  · intro hb
    unfold loadGlobalResolve
    rw [h]
    simp only [Option.getD_some]
    rw [hb]
    exact ⟨rfl, rfl, rfl⟩

/-- Witness for `c10_none_global_treated_as_undefined`: the concrete globals
`{"n": None}` with empty builtins. -/
theorem c10_witness :
    alook [("n", Val.vnone)] "n" = some .vnone ∧
    loadGlobalResolve [("n", Val.vnone)] [] "n" =
      loadGlobalResolve (aerase [("n", Val.vnone)] "n") [] "n" ∧
    (loadGlobalResolve [("n", Val.vnone)] [] "n").2 = [] ∧
    (loadGlobalResolve [("n", Val.vnone)] [] "n").1.target = .vstr "n" := by
  have h := c10_none_global_treated_as_undefined [("n", Val.vnone)] [] "n" rfl
  exact ⟨rfl, h.1, (h.2.2 rfl).1, (h.2.2 rfl).2.2⟩

/-- Boolean well-formedness: instruction offsets strictly increase along the
stream (true of every `dis` decode). -/
def offsetsMonoB : List Instr → Bool
  | a :: b :: rest => (a.offset < b.offset) && offsetsMonoB (b :: rest)
  | _ => true

/-- Boolean well-formedness: every integer jump target is an instruction
offset (true of every real code object). -/
def targetsValidB (instrs : List Instr) : Bool :=
  instrs.all (fun i =>
    match jumpTargetOf i with
    | some t => instrs.any (fun j => j.offset = t)
    | Option.none => true)

/-- The amended leader description: the first instruction's offset, an
integer jump target, or the offset of the instruction immediately after a
return or *unconditional* jump (`RETURN_VALUE`, `JUMP_ABSOLUTE`,
`JUMP_FORWARD`) — not after a conditional branch. -/
def IsLeaderSpec (instrs : List Instr) (o : Nat) : Prop :=
  (∃ i0, instrs.head? = some i0 ∧ o = i0.offset) ∨
  (∃ i ∈ instrs, jumpTargetOf i = some o) ∨
  (∃ k a b, instrs.get? k = some a ∧ instrs.get? (k + 1) = some b ∧
    (a.opname = "RETURN_VALUE" ∨ a.opname = "JUMP_ABSOLUTE" ∨ a.opname = "JUMP_FORWARD") ∧
    o = b.offset)

/-- Membership in a sorted-insert. -/
theorem mem_insSortDedup (o x : Nat) : ∀ l : List Nat, o ∈ insSortDedup x l ↔ o = x ∨ o ∈ l := by
  intro l
  induction l with
  | nil => simp [insSortDedup]
  | cons y ys ih =>
      by_cases hxy : x = y
      · subst hxy
        simp only [insSortDedup, if_pos rfl]
        constructor
        · intro h; exact Or.inr h
        · intro h
          cases h with
          | inl h2 => subst h2; exact List.mem_cons_self _ _
          | inr h2 => exact h2
      · by_cases hlt : x < y
        · simp only [insSortDedup, if_neg hxy, if_pos hlt]
          simp [List.mem_cons]
        · simp only [insSortDedup, if_neg hxy, if_neg hlt]
          simp only [List.mem_cons, ih]
          tauto

/-- Sorted-insert preserves strict sortedness. -/
theorem pairwise_insSortDedup (x : Nat) :
    ∀ l : List Nat, List.Pairwise (· < ·) l → List.Pairwise (· < ·) (insSortDedup x l) := by
  intro l
  induction l with
  | nil => intro _; simp [insSortDedup]
  | cons y ys ih =>
      intro hp
      rcases List.pairwise_cons.mp hp with ⟨hy, hys⟩
      by_cases hxy : x = y
      · simpa [insSortDedup, hxy] using hp
      · by_cases hlt : x < y
        · simp only [insSortDedup, if_neg hxy, if_pos hlt]
          refine List.pairwise_cons.mpr ⟨?_, hp⟩
          intro z hz
          cases List.mem_cons.mp hz with
          | inl h2 => subst h2; exact hlt
          | inr h2 => exact lt_trans hlt (hy z h2)
        · have hyx : y < x := by omega
          simp only [insSortDedup, if_neg hxy, if_neg hlt]
          refine List.pairwise_cons.mpr ⟨?_, ih hys⟩
          intro z hz
          cases (mem_insSortDedup z x ys).mp hz with
          | inl h2 => subst h2; exact hyx
          | inr h2 => exact hy z h2

/-- Membership in the sorted leader list is membership in the candidates. -/
theorem mem_leadersOf (instrs : List Instr) (o : Nat) :
    o ∈ leadersOf instrs ↔ o ∈ leaderCandidates instrs := by
  unfold leadersOf
  have key : ∀ (l : List Nat) (acc : List Nat),
      o ∈ l.foldr insSortDedup acc ↔ o ∈ l ∨ o ∈ acc := by
    intro l
    induction l with
    | nil => intro acc; simp
    | cons x xs ih =>
        intro acc
        simp only [List.foldr_cons, mem_insSortDedup, ih acc, List.mem_cons]
        tauto
  simpa using key (leaderCandidates instrs) []

/-- The sorted leader list is strictly sorted. -/
theorem pairwise_leadersOf (instrs : List Instr) :
    List.Pairwise (· < ·) (leadersOf instrs) := by
  unfold leadersOf
  have key : ∀ (l : List Nat) (acc : List Nat),
      List.Pairwise (· < ·) acc → List.Pairwise (· < ·) (l.foldr insSortDedup acc) := by
    intro l
    induction l with
    | nil => intro acc h; simpa using h
    | cons x xs ih =>
        intro acc h
        exact pairwise_insSortDedup x _ (ih acc h)
  exact key _ [] (by simp)

/-- Membership in `afterTermOffsets` is the existence of a consecutive pair
whose first member is a return or unconditional jump. -/
theorem mem_afterTermOffsets (o : Nat) :
    ∀ l : List Instr, o ∈ afterTermOffsets l ↔
      ∃ k a b, l.get? k = some a ∧ l.get? (k + 1) = some b ∧
        (a.opname = "RETURN_VALUE" ∨ a.opname = "JUMP_ABSOLUTE" ∨ a.opname = "JUMP_FORWARD") ∧
        o = b.offset := by
  intro l
  induction l with
  | nil =>
      simp only [afterTermOffsets]
      constructor
      · intro h; cases h
      · rintro ⟨k, a, b, h1, _⟩; cases h1
  | cons a rest ih =>
      cases rest with
      | nil =>
          simp only [afterTermOffsets]
          constructor
          · intro h; cases h
          · rintro ⟨k, c, d, h1, h2, _⟩
            cases k with
            | zero => cases h2
            | succ k2 =>
                simp only [List.get?] at h2
                cases k2 <;> cases h2
      | cons b rest2 =>
          simp only [afterTermOffsets, List.mem_append]
          constructor
          · intro h
            cases h with
            | inl h2 =>
                by_cases hp : a.opname = "RETURN_VALUE" ∨ a.opname = "JUMP_ABSOLUTE" ∨ a.opname = "JUMP_FORWARD"
                · rw [if_pos hp] at h2
                  simp only [List.mem_singleton] at h2
                  exact ⟨0, a, b, rfl, rfl, hp, h2⟩
                · rw [if_neg hp] at h2
                  cases h2
            | inr h2 =>
                rcases (ih).mp h2 with ⟨k, c, d, h3, h4, h5, h6⟩
                exact ⟨k + 1, c, d, h3, h4, h5, h6⟩
          · rintro ⟨k, c, d, h3, h4, h5, h6⟩
            cases k with
            | zero =>
                simp only [List.get?] at h3 h4
                cases h3
                cases h4
                left
                rw [if_pos h5]
                simp [h6]
            | succ k2 =>
                right
                exact (ih).mpr ⟨k2, c, d, h3, h4, h5, h6⟩

/-- The computed leader set is exactly the amended description. -/
theorem mem_leadersOf_iff_spec (instrs : List Instr) (o : Nat) :
    o ∈ leadersOf instrs ↔ IsLeaderSpec instrs o := by
  rw [mem_leadersOf]
  unfold leaderCandidates IsLeaderSpec
  cases instrs with
  | nil =>
      constructor
      · intro h; cases h
      · rintro (⟨i0, h1, _⟩ | ⟨i, hi, _⟩ | ⟨k, a, b, h1, _⟩)
        · cases h1
        · cases hi
        · cases h1
  | cons i0 rest =>
      simp only [List.mem_cons, List.mem_append, List.mem_filterMap, List.head?,
        mem_afterTermOffsets, Option.some.injEq]
      constructor
      · rintro (h | ⟨i, hi, ht⟩ | h)
        · exact Or.inl ⟨i0, rfl, h⟩
        · exact Or.inr (Or.inl ⟨i, hi, ht⟩)
        · exact Or.inr (Or.inr h)
      · rintro (⟨j, hj, ho⟩ | ⟨i, hi, ht⟩ | h)
        · cases hj; exact Or.inl ho
        · exact Or.inr (Or.inl ⟨i, hi, ht⟩)
        · exact Or.inr (Or.inr h)

/-- `idxOf` finds an instruction with the requested offset. -/
theorem idxOf_get (off : Nat) :
    ∀ (instrs : List Instr) (k : Nat), idxOf instrs off = some k →
      ∃ i, instrs.get? k = some i ∧ i.offset = off := by
  intro instrs
  induction instrs with
  | nil => intro k h; cases h
  | cons i rest ih =>
      intro k h
      by_cases hi : i.offset = off
      · simp only [idxOf, if_pos hi] at h
        cases h
        exact ⟨i, rfl, hi⟩
      · simp only [idxOf, if_neg hi] at h
        cases hk : idxOf rest off with
        | none => rw [hk] at h; cases h
        | some k2 =>
            rw [hk] at h
            simp only [Option.map_some'] at h
            cases h
            rcases ih k2 hk with ⟨j, hj1, hj2⟩
            exact ⟨j, hj1, hj2⟩

/-- A present offset is found by `idxOf`. -/
theorem idxOf_of_mem (off : Nat) :
    ∀ instrs : List Instr, (∃ j ∈ instrs, j.offset = off) →
      ∃ k, idxOf instrs off = some k := by
  intro instrs
  induction instrs with
  | nil => rintro ⟨j, hj, _⟩; cases hj
  | cons i rest ih =>
      rintro ⟨j, hj, hoff⟩
      by_cases hi : i.offset = off
      · exact ⟨0, by simp [idxOf, hi]⟩
      · cases List.mem_cons.mp hj with
        | inl h2 => subst h2; exact absurd hoff hi
        | inr h2 =>
            rcases ih ⟨j, h2, hoff⟩ with ⟨k, hk⟩
            exact ⟨k + 1, by simp [idxOf, hi, hk]⟩

/-- With strictly increasing offsets, `idxOf` is strictly monotone. -/
theorem idxOf_mono (instrs : List Instr)
    (hpw : List.Pairwise (fun a b => a.offset < b.offset) instrs)
    (o1 o2 k1 k2 : Nat) (h1 : idxOf instrs o1 = some k1) (h2 : idxOf instrs o2 = some k2)
    (hlt : o1 < o2) : k1 < k2 := by
  rcases idxOf_get o1 instrs k1 h1 with ⟨i1, hg1, ho1⟩
  rcases idxOf_get o2 instrs k2 h2 with ⟨i2, hg2, ho2⟩
  by_contra hk
  push_neg at hk
  rcases Nat.lt_or_ge k2 k1 with hk2 | hk2
  · have hk1len : k1 < instrs.length := List.get?_eq_some.mp hg1 |>.1
    have := (List.pairwise_iff_get.mp hpw) ⟨k2, Nat.lt_trans hk2 hk1len⟩ ⟨k1, hk1len⟩ hk2
    rw [List.get?_eq_get (Nat.lt_trans hk2 hk1len)] at hg2
    rw [List.get?_eq_get hk1len] at hg1
    cases hg1
    cases hg2
    omega
  · have : k1 = k2 := by omega
    subst this
    rw [hg1] at hg2
    cases hg2
    omega

/-- The two-leader unfolding of `mkBlocks`. -/
theorem mkBlocks_cons_eq (instrs : List Instr) (l l2 : Nat) (rest2 : List Nat)
    (s e : Nat) (hs : idxOf instrs l = some s) (he : idxOf instrs l2 = some e) :
    mkBlocks instrs (l :: l2 :: rest2) =
      (mkBlocks instrs (l2 :: rest2)).map
        (fun bbs => (l, (instrs.drop s).take (e - s)) :: bbs) := by
  show (match idxOf instrs l, idxOf instrs l2 with
    | some s2, some e2 =>
        (mkBlocks instrs (l2 :: rest2)).map
          (fun bbs => (l, (instrs.drop s2).take (e2 - s2)) :: bbs)
    | _, _ => none) = _
  rw [hs, he]

/-- `mkBlocks` on a sorted valid leader list starting at index `s` succeeds
and its block ranges flatten to the instruction suffix from `s`. -/
theorem mkBlocks_cons_flatten (instrs : List Instr)
    (hpw : List.Pairwise (fun a b => a.offset < b.offset) instrs) :
    ∀ (rest : List Nat) (l s : Nat),
      idxOf instrs l = some s →
      List.Pairwise (· < ·) (l :: rest) →
      (∀ o ∈ l :: rest, ∃ j ∈ instrs, j.offset = o) →
      ∃ bbs, mkBlocks instrs (l :: rest) = some bbs ∧
        ((bbs.map (fun r => r.2)).flatten = instrs.drop s) := by
  intro rest
  induction rest with
  | nil =>
      intro l s hs _ _
      refine ⟨[(l, (instrs.drop s).take (instrs.length - s))], ?_, ?_⟩
      · simp [mkBlocks, hs]
      · simp only [List.map_cons, List.map_nil, List.flatten_cons, List.flatten_nil,
          List.append_nil]
        rw [← List.length_drop]
        exact List.take_length _
  | cons l2 rest2 ih =>
      intro l s hs hsort hval
      have hl2 : ∃ j ∈ instrs, j.offset = l2 := hval l2 (by simp)
      rcases idxOf_of_mem l2 instrs hl2 with ⟨e, he⟩
      have hll2 : l < l2 := (List.pairwise_cons.mp hsort).1 l2 (by simp)
      have hse : s < e := idxOf_mono instrs hpw l l2 s e hs he hll2
      have hsort2 : List.Pairwise (· < ·) (l2 :: rest2) := (List.pairwise_cons.mp hsort).2
      have hval2 : ∀ o ∈ l2 :: rest2, ∃ j ∈ instrs, j.offset = o := by
        intro o ho
        exact hval o (List.mem_cons_of_mem _ ho)
      rcases ih l2 e he hsort2 hval2 with ⟨bbs2, hmk2, hflat2⟩
      refine ⟨(l, (instrs.drop s).take (e - s)) :: bbs2, ?_, ?_⟩
      · rw [mkBlocks_cons_eq instrs l l2 rest2 s e hs he, hmk2]
        rfl
      · simp only [List.map_cons, List.flatten_cons, hflat2]
        have hdrop : instrs.drop e = (instrs.drop s).drop (e - s) := by
          rw [List.drop_drop]
          congr 1
          omega
        rw [hdrop]
        exact List.take_append_drop _ _

/-- Every collected leader candidate is an instruction offset when the jump
targets are valid. -/
theorem leader_candidates_valid (instrs : List Instr)
    (hval : targetsValidB instrs = true) :
    ∀ o ∈ leadersOf instrs, ∃ j ∈ instrs, j.offset = o := by
  intro o ho
  rw [mem_leadersOf_iff_spec] at ho
  rcases ho with ⟨i0, h1, h2⟩ | ⟨i, hi, ht⟩ | ⟨k, a, b, _, h2, _, h4⟩
  · cases instrs with
    | nil => cases h1
    | cons j rest =>
        simp only [List.head?, Option.some.injEq] at h1
        subst h1
        exact ⟨j, by simp, h2.symm⟩
  · have := List.all_eq_true.mp hval i hi
    rw [ht] at this
    simp only [List.any_eq_true] at this
    rcases this with ⟨j, hj, hoff⟩
    exact ⟨j, hj, by simpa using hoff⟩
  · exact ⟨b, List.get?_mem h2, h4.symm⟩

/-- With strictly increasing offsets, the first instruction's offset heads
the sorted leader list. -/
theorem leadersOf_head (i0 : Instr) (rest : List Instr)
    (hpw : List.Pairwise (fun a b => a.offset < b.offset) (i0 :: rest))
    (hval : targetsValidB (i0 :: rest) = true) :
    ∃ t, leadersOf (i0 :: rest) = i0.offset :: t := by
  have hmem : i0.offset ∈ leadersOf (i0 :: rest) := by
    rw [mem_leadersOf]
    simp [leaderCandidates]
  cases hL : leadersOf (i0 :: rest) with
  | nil => rw [hL] at hmem; cases hmem
  | cons h t =>
      have hhead : h ∈ leadersOf (i0 :: rest) := by rw [hL]; simp
      rcases leader_candidates_valid _ hval h hhead with ⟨j, hj, hoff⟩
      have hle : i0.offset ≤ h := by
        cases List.mem_cons.mp hj with
        | inl h2 => subst h2; omega
        | inr h2 =>
            have := (List.pairwise_cons.mp hpw).1 j h2
            omega
      rw [hL] at hmem
      cases List.mem_cons.mp hmem with
      | inl h2 => exact ⟨t, by rw [h2]⟩
      | inr h2 =>
          have hsorted := pairwise_leadersOf (i0 :: rest)
          rw [hL] at hsorted
          have := (List.pairwise_cons.mp hsorted).1 _ h2
          omega

/-- The Boolean strict-monotonicity of offsets gives the pairwise form. -/
theorem offsetsMono_pairwise :
    ∀ instrs : List Instr, offsetsMonoB instrs = true →
      List.Pairwise (fun a b => a.offset < b.offset) instrs := by
  intro instrs
  induction instrs with
  | nil => intro _; exact List.Pairwise.nil
  | cons a rest ih =>
      intro h
      cases rest with
      | nil => simp
      | cons b rest2 =>
          have h2 : a.offset < b.offset ∧ offsetsMonoB (b :: rest2) = true := by
            simpa [offsetsMonoB, Bool.and_eq_true] using h
          have hpw := ih h2.2
          refine List.pairwise_cons.mpr ⟨?_, hpw⟩
          intro c hc
          cases List.mem_cons.mp hc with
          | inl h3 => subst h3; exact h2.1
          | inr h3 =>
              have := (List.pairwise_cons.mp hpw).1 c h3
              omega

/-- C5 amended (proved): for every nonempty instruction stream with strictly
increasing offsets and valid jump targets, the computed leaders are exactly:
the first instruction, every integer jump target, and every instruction
immediately following a return or *unconditional* jump (`JUMP_ABSOLUTE` /
`JUMP_FORWARD`) — not following a conditional branch; and the block build
succeeds with block ranges that flatten back to the instruction stream (so
the ranges partition it, each block ending right before the next leader or at
the stream's end). -/
theorem c5_leaders_amended (instrs : List Instr)
    (hne : instrs.isEmpty = false)
    (hmono : offsetsMonoB instrs = true)
    (hval : targetsValidB instrs = true) :
    (∀ o, o ∈ leadersOf instrs ↔ IsLeaderSpec instrs o) ∧
    ∃ bbs, buildBasicBlocks instrs = some bbs ∧
      (bbs.map (fun b => b.instrs)).flatten = instrs := by
  refine ⟨fun o => mem_leadersOf_iff_spec instrs o, ?_⟩
  have hpw := offsetsMono_pairwise instrs hmono
  cases hinstrs : instrs with
  | nil => rw [hinstrs] at hne; cases hne
  | cons i0 rest =>
      subst hinstrs
      rcases leadersOf_head i0 rest hpw hval with ⟨t, hL⟩
      have hs0 : idxOf (i0 :: rest) i0.offset = some 0 := by simp [idxOf]
      have hsorted := pairwise_leadersOf (i0 :: rest)
      rw [hL] at hsorted
      have hvalid := leader_candidates_valid (i0 :: rest) hval
      rw [hL] at hvalid
      rcases mkBlocks_cons_flatten (i0 :: rest) hpw t i0.offset 0 hs0 hsorted hvalid
        with ⟨ranges, hmk, hflat⟩
      refine ⟨ranges.map (fun r =>
        { start := r.1, instrs := r.2,
          succs := succsFor (i0 :: rest) (ranges.map (fun r2 => r2.1)) r.2,
          preds := predsFor (i0 :: rest) ranges r.1 }), ?_, ?_⟩
      · unfold buildBasicBlocks
        rw [hL, hmk]
        rfl
      · rw [List.map_map]
        simpa using hflat

/-- Witness for `c5_leaders_amended` at the concrete `twoBlockFn` stream. -/
theorem c5_leaders_amended_witness :
    twoBlockFn.instrs.isEmpty = false ∧
    offsetsMonoB twoBlockFn.instrs = true ∧
    targetsValidB twoBlockFn.instrs = true ∧
    ((4 : Nat) ∈ leadersOf twoBlockFn.instrs ↔ IsLeaderSpec twoBlockFn.instrs 4) ∧
    (∃ bbs, buildBasicBlocks twoBlockFn.instrs = some bbs ∧
      (bbs.map (fun b => b.instrs)).flatten = twoBlockFn.instrs) := by
  refine ⟨rfl, rfl, rfl, ?_, ?_⟩
  · exact (c5_leaders_amended twoBlockFn.instrs rfl rfl rfl).1 4
  · exact (c5_leaders_amended twoBlockFn.instrs rfl rfl rfl).2

end DemoFx
